import Mathlib

/- Verification of the beam-search decoder of
   espnet/nets/chainer_backend/e2e_asr_transformer.py (class E2E,
   methods recognize / recognize_beam), over a shallow embedding.

   Scores are modelled as rationals; the neural collaborators (attention
   decoder, CTC prefix scorer, external LM, end detector) are abstract
   functional parameters of the model, as the spec treats them. -/

attribute [local semireducible] Rat.add Rat.mul Rat.sub Rat.inv

namespace E2ETransformer

/-- Python `int(x)` conversion on a rational value: truncation toward zero. -/
def pyTrunc (q : ℚ) : ℤ := q.num.tdiv (q.den : ℤ)

/-- The recognition argument namespace (`recog_args`): the configuration
fields read by `recognize_beam`. -/
structure Args where
  beam_size : Nat
  penalty : ℚ
  ctc_weight : ℚ
  lm_weight : ℚ
  maxlenratio : ℚ
  minlenratio : ℚ
deriving DecidableEq, Inhabited

/-- Modelled from the spec: the external LM collaborator interface
(`rnnlm.predict(state, token) -> (new_state, log_probs)` and
`rnnlm.final(state) -> float`, spec section 6).  The LM implementation is not
among the excerpted source files, so it stays an abstract collaborator with
opaque state type `σ`; the initial state is Python `None`, hence `Option σ`. -/
structure RNNLM (σ : Type) where
  predict : Option σ → Nat → σ × (Nat → ℚ)
  final : Option σ → ℚ

/-- Modelled from the spec: `CTCPrefixScore` (spec section 4.1), imported in
the source from `espnet.nets.ctc_prefix_score`, which is not among the
excerpted files.  It is kept abstract: `vocab` is `lpz.shape[-1]`,
`initial_state` is `initial_state()`, and `score prefix candidate_ids state`
returns the per-candidate cumulative CTC prefix scores (indexed by token id)
and the per-candidate new states.  No claim depends on its internals. -/
structure CTCPrefixScore (γ : Type) where
  vocab : Nat
  initial_state : γ
  score : List Nat → List Nat → Option γ → (Nat → ℚ) × (Nat → γ)

/-- A decoding hypothesis: the Python dict with keys `score`, `yseq`,
`rnnlm_prev`, `ctc_state_prev`, `ctc_score_prev` (the latter three present
only when an LM / CTC matrix is in use; absence is modelled by `Option` and
by a dead `ctc_score_prev` field). -/
structure Hyp (σ γ : Type) where
  score : ℚ
  yseq : List Nat
  rnnlm_prev : Option σ
  ctc_state_prev : Option γ
  ctc_score_prev : ℚ
deriving DecidableEq

/-- The state of the `E2E` object and its collaborators as seen by
`recognize_beam`: decoder vocabulary size `odim`, the `sos` and `eos` ids,
the attention decoder (prefix ↦ token ↦ log-probability, the value of
`F.log_softmax(out[:, -1])`), the optional CTC prefix scorer (present iff
`lpz is not None`), the optional LM, and the external `end_detect` heuristic
(modelled from the spec as an abstract predicate on the ended list and the
step index, since `espnet.nets.e2e_asr_common` is not among the excerpted
files). -/
structure Model (σ γ : Type) where
  odim : Nat
  sos : Nat
  eos : Nat
  att : List Nat → Nat → ℚ
  ctc : Option (CTCPrefixScore γ)
  lm : Option (RNNLM σ)
  end_detect : List (ℚ × List Nat) → Nat → Bool

/-- Stable descending sort by a rational key: Python
`sorted(xs, key=key, reverse=True)`. -/
def sortByDesc {α : Type} (key : α → ℚ) (l : List α) : List α :=
  l.insertionSort (fun a b => key b ≤ key a)

/-- Indices `0 .. n-1` sorted by descending score:
`xp.argsort(scores)[0, ::-1]`. -/
def argsortDesc (n : Nat) (s : Nat → ℚ) : List Nat :=
  sortByDesc s (List.range n)

/-- `maxlen`: `h.shape[0]` when `maxlenratio == 0`, else
`max(1, int(maxlenratio * h.shape[0]))`. -/
def maxlenOf (args : Args) (L : Nat) : Nat :=
  if args.maxlenratio = 0 then L else (max 1 (pyTrunc (args.maxlenratio * L))).toNat

/-- `minlen = int(minlenratio * h.shape[0])`. -/
def minlenOf (args : Args) (L : Nat) : ℤ := pyTrunc (args.minlenratio * L)

/-- Modelled from the spec: the pruning constant `CTC_SCORING_RATIO`, imported
in the source from `espnet.nets.pytorch_backend.rnn.decoders` (not among the
excerpted files); the spec fixes the pruning ratio to 1.5, which also matches
the module-level constant defined in the source file itself. -/
def ctcScoringRatio : ℚ := 3 / 2

variable {σ γ : Type}

/-- The per-hypothesis LM query
`rnnlm.predict(hyp['rnnlm_prev'], hyp['yseq'][i])`, made only when an LM is
present. -/
def lmRes (m : Model σ γ) (i : Nat) (hyp : Hyp σ γ) : Option (σ × (Nat → ℚ)) :=
  m.lm.map (fun lm => lm.predict hyp.rnnlm_prev (hyp.yseq.getD i 0))

/-- The pre-pruning scores `local_scores`: attention log-probabilities, plus
`lm_weight` times the LM log-probabilities when an LM is present. -/
def preScores (m : Model σ γ) (args : Args) (i : Nat) (hyp : Hyp σ γ) : Nat → ℚ :=
  match lmRes m i hyp with
  | some p => fun c => m.att hyp.yseq c + args.lm_weight * p.2 c
  | none => m.att hyp.yseq

/-- The size `ctc_beam` of the CTC-scoring candidate set:
`min(lpz.shape[-1], int(beam * CTC_SCORING_RATIO))` when `ctc_weight != 1.0`,
and the full CTC vocabulary `lpz.shape[-1]` when `ctc_weight == 1.0`. -/
def ctcBeamOf (args : Args) (cs : CTCPrefixScore γ) : Nat :=
  if args.ctc_weight = 1 then cs.vocab
  else min cs.vocab (pyTrunc ((args.beam_size : ℚ) * ctcScoringRatio)).toNat

/-- The CTC-scoring candidate set
`local_best_ids = xp.argsort(local_scores)[0, ::-1][:ctc_beam]`. -/
def ctcCandidates (m : Model σ γ) (args : Args) (i : Nat) (hyp : Hyp σ γ)
    (cs : CTCPrefixScore γ) : List Nat :=
  (argsortDesc m.odim (preScores m args i hyp)).take (ctcBeamOf args cs)

/-- The CTC scorer query
`ctc_prefix_score(hyp['yseq'], local_best_ids, hyp['ctc_state_prev'])`,
issued only for the restricted candidate set. -/
def ctcRes (m : Model σ γ) (args : Args) (i : Nat) (hyp : Hyp σ γ)
    (cs : CTCPrefixScore γ) : (Nat → ℚ) × (Nat → γ) :=
  cs.score hyp.yseq (ctcCandidates m args i hyp cs) hyp.ctc_state_prev

/-- The combined candidate score
`(1 - ctc_weight) * local_att_scores + ctc_weight * (ctc_scores -
hyp['ctc_score_prev'])`, plus `lm_weight * local_lm_scores` when an LM is
present. -/
def combScores (m : Model σ γ) (args : Args) (i : Nat) (hyp : Hyp σ γ)
    (cs : CTCPrefixScore γ) : Nat → ℚ := fun c =>
  (1 - args.ctc_weight) * m.att hyp.yseq c
    + args.ctc_weight * ((ctcRes m args i hyp cs).1 c - hyp.ctc_score_prev)
    + (match lmRes m i hyp with
       | some p => args.lm_weight * p.2 c
       | none => 0)

/-- The tokens that survive the joint re-ranking:
`local_best_ids[joint_best_ids]` with
`joint_best_ids = xp.argsort(local_scores)[0, ::-1][:beam]`. -/
def keptTokens (m : Model σ γ) (args : Args) (i : Nat) (hyp : Hyp σ γ)
    (cs : CTCPrefixScore γ) : List Nat :=
  (sortByDesc (combScores m args i hyp cs) (ctcCandidates m args i hyp cs)).take
    args.beam_size

/-- The `rnnlm_prev` field attached to every child of a hypothesis. -/
def newLmState (m : Model σ γ) (i : Nat) (hyp : Hyp σ γ) : Option σ :=
  match lmRes m i hyp with
  | some p => some p.1
  | none => hyp.rnnlm_prev

/-- Expansion of a single beam hypothesis at step `i`: the inner
`for j in six.moves.range(beam)` loop building `new_hyp` records, in the CTC
branch (`lpz is not None`) and in the attention-only branch. -/
def expandHyp (m : Model σ γ) (args : Args) (i : Nat) (hyp : Hyp σ γ) :
    List (Hyp σ γ) :=
  match m.ctc with
  | some cs =>
    (keptTokens m args i hyp cs).map (fun c =>
      { score := hyp.score + combScores m args i hyp cs c
        yseq := hyp.yseq ++ [c]
        rnnlm_prev := newLmState m i hyp
        ctc_state_prev := some ((ctcRes m args i hyp cs).2 c)
        ctc_score_prev := (ctcRes m args i hyp cs).1 c })
  | none =>
    ((argsortDesc m.odim (preScores m args i hyp)).take args.beam_size).map (fun c =>
      { score := hyp.score + preScores m args i hyp c
        yseq := hyp.yseq ++ [c]
        rnnlm_prev := newLmState m i hyp
        ctc_state_prev := hyp.ctc_state_prev
        ctc_score_prev := hyp.ctc_score_prev })

/-- The per-step pruning loop over the live beam: children of each hypothesis
are accumulated into `hyps_best_kept`, which after every hypothesis is
re-sorted by score and truncated to `beam` entries
(`hyps_best_kept = sorted(hyps_best_kept, key=..., reverse=True)[:beam]`). -/
def pruneExpand (m : Model σ γ) (args : Args) (i : Nat) (hyps : List (Hyp σ γ)) :
    List (Hyp σ γ) :=
  hyps.foldl (fun acc hyp =>
    (sortByDesc Hyp.score (acc ++ expandHyp m args i hyp)).take args.beam_size) []

/-- The score adjustment applied to a completed hypothesis:
`hyp['score'] += (i + 1) * penalty` plus, when an LM is present,
`lm_weight * rnnlm.final(hyp['rnnlm_prev'])`. -/
def hypEndBonus (m : Model σ γ) (args : Args) (i : Nat) (h : Hyp σ γ) : Hyp σ γ :=
  { h with score := h.score + ((i : ℚ) + 1) * args.penalty
      + (match m.lm with
         | some lm => args.lm_weight * lm.final h.rnnlm_prev
         | none => 0) }

/-- The completion filter over the pruned beam: hypotheses ending in `eos`
with more than `minlen` tokens get the end bonus and go to the ended list
(first component); hypotheses ending in `eos` but failing the length check are
dropped; the rest remain live (second component). -/
def filterEnded (m : Model σ γ) (args : Args) (minlen : ℤ) (i : Nat) :
    List (Hyp σ γ) → List (Hyp σ γ) × List (Hyp σ γ)
  | [] => ([], [])
  | h :: t =>
    let rest := filterEnded m args minlen i t
    if h.yseq.getLast? = some m.eos then
      if minlen < (h.yseq.length : ℤ) then (hypEndBonus m args i h :: rest.1, rest.2)
      else rest
    else (rest.1, h :: rest.2)

/-- The forced `hyp['yseq'].append(self.eos)` applied to every pruned
hypothesis at the final step, regardless of its score or last token. -/
def forceEos (m : Model σ γ) (h : Hyp σ γ) : Hyp σ γ :=
  { h with yseq := h.yseq ++ [m.eos] }

/-- The live beam `hyps` and the accumulated `ended_hyps` between steps. -/
structure SearchState (σ γ : Type) where
  hyps : List (Hyp σ γ)
  ended : List (Hyp σ γ)
deriving DecidableEq

/-- Outcome of one loop iteration: `stop` carries the final `ended_hyps` when
the loop breaks (end detection, or empty remaining beam) and `next` carries
the state for step `i + 1`. -/
inductive StepOut (σ γ : Type) where
  | stop (ended : List (Hyp σ γ))
  | next (st : SearchState σ γ)
deriving DecidableEq

/-- One iteration of the decoding loop at step `i`: prune-expand, forced
`eos` append when `i == maxlen - 1`, completion filtering, end detection
(which breaks only when `maxlenratio == 0.0`), and the empty-beam break. -/
def stepBody (m : Model σ γ) (args : Args) (maxlen : Nat) (minlen : ℤ) (i : Nat)
    (st : SearchState σ γ) : StepOut σ γ :=
  let kept := pruneExpand m args i st.hyps
  let kept2 := if i = maxlen - 1 then kept.map (forceEos m) else kept
  let fe := filterEnded m args minlen i kept2
  let ended2 := st.ended ++ fe.1
  if m.end_detect (ended2.map (fun h => (h.score, h.yseq))) i ∧ args.maxlenratio = 0 then
    StepOut.stop ended2
  else if fe.2.isEmpty then StepOut.stop ended2
  else StepOut.next ⟨fe.2, ended2⟩

/-- The `for i in six.moves.range(maxlen)` loop; the first argument counts the
remaining iterations (`maxlen - i`), so the loop also ends when it reaches 0.
Returns the final `ended_hyps`. -/
def searchLoop (m : Model σ γ) (args : Args) (maxlen : Nat) (minlen : ℤ) :
    Nat → Nat → SearchState σ γ → List (Hyp σ γ)
  | 0, _, st => st.ended
  | fuel + 1, i, st =>
    match stepBody m args maxlen minlen i st with
    | StepOut.stop e => e
    | StepOut.next st2 => searchLoop m args maxlen minlen fuel (i + 1) st2

/-- The initial hypothesis: score 0, token sequence `[sos]`, LM state `None`,
and the CTC initial state with `ctc_score_prev = 0.0` when a CTC matrix is
present. -/
def initHyp (m : Model σ γ) : Hyp σ γ :=
  { score := 0
    yseq := [m.sos]
    rnnlm_prev := none
    ctc_state_prev := m.ctc.map (fun cs => cs.initial_state)
    ctc_score_prev := 0 }

/-- One full search pass of `recognize_beam` for encoder output length `L`:
runs the step loop from the initial hypothesis and returns the (unsorted)
`ended_hyps`. -/
def searchOnce (m : Model σ γ) (args : Args) (L : Nat) : List (Hyp σ γ) :=
  searchLoop m args (maxlenOf args L) (minlenOf args L) (maxlenOf args L) 0
    ⟨[initHyp m], []⟩

/-- `recognize_beam`: sort `ended_hyps` by descending score; when the result
is empty, retry the whole search with `minlenratio` reduced by 0.1 (floored at
0) on a copied argument namespace.  The source recursion is unbounded, so it
is given explicit fuel here; `none` stands for fuel exhaustion, never for an
error raised by the source. -/
def recognize_beam (m : Model σ γ) : Nat → Args → Nat → Option (List (Hyp σ γ))
  | 0, _, _ => none
  | fuel + 1, args, L =>
    let nbest := sortByDesc Hyp.score (searchOnce m args L)
    if nbest.length = 0 then
      recognize_beam m fuel { args with minlenratio := max 0 (args.minlenratio - 1 / 10) } L
    else some nbest

/-- `recognize_beam` with the caller-visible argument namespaces made
explicit: `store` is a heap of `Namespace` objects and `r` the reference held
by the caller.  On the empty-result retry, the source evaluates
`recog_args = Namespace(**vars(recog_args))` — allocating a fresh namespace —
and mutates `minlenratio` only on that fresh object, then recurses with the
new reference.  The second component is the heap after the call. -/
def recognize_beam_st (m : Model σ γ) (L : Nat) :
    Nat → List Args → Nat → Option (List (Hyp σ γ)) × List Args
  | 0, store, _ => (none, store)
  | fuel + 1, store, r =>
    let args := store.getD r default
    let nbest := sortByDesc Hyp.score (searchOnce m args L)
    if nbest.length = 0 then
      let store1 := store ++ [args]
      let store2 := store1.set store.length
        { args with minlenratio := max 0 (args.minlenratio - 1 / 10) }
      recognize_beam_st m L fuel store2 store.length
    else (some nbest, store)

/- Concrete instantiations used to exercise the definitions: tiny vocabularies
with deterministic attention scores, no LM, and (where present) a fixed CTC
scorer.  They follow the spec's toy-scenario style (blank 0, `sos = eos` as
the last vocabulary entry). -/

/-- A two-token model (`eos = sos = 1`), no CTC and no LM, whose attention
decoder always prefers EOS. -/
def exA : Model Unit Unit :=
  { odim := 2
    sos := 1
    eos := 1
    att := fun _ c => if c = 1 then 0 else -1
    ctc := none
    lm := none
    end_detect := fun _ _ => false }

/-- Arguments with `beam_size = 1`, `maxlenratio = 0`, `minlenratio = 0.9`:
on a 4-frame input, `minlen = 3`, so the immediate 2-token completion
`[sos, eos]` is dropped and the first search passes end with nothing. -/
def exArgs5 : Args := ⟨1, 0, 0, 0, 0, 9 / 10⟩

/-- Arguments with `maxlenratio = 0.1` and `minlenratio = 0.2`: on a 10-frame
input `maxlen = 1` and `minlen = 2`, so the very first step is the forced-EOS
step. -/
def exArgs9 : Args := ⟨1, 0, 0, 0, 1 / 10, 1 / 5⟩

/-- A CTC scorer over a three-token vocabulary that strongly prefers token 1
regardless of prefix and state. -/
def exCs1 : CTCPrefixScore Unit :=
  ⟨3, (), fun _ _ _ => (fun c => if c = 1 then 100 else 0, fun _ => ())⟩

/-- A three-token model with CTC present whose attention decoder ranks the
tokens `0 > 1 > 2`, while the CTC scorer prefers token 1. -/
def exCtc1 : Model Unit Unit :=
  { odim := 3
    sos := 2
    eos := 2
    att := fun _ c => if c = 0 then 0 else if c = 1 then -1 else -2
    ctc := some exCs1
    lm := none
    end_detect := fun _ _ => false }

/-- Arguments with `beam_size = 1` and `ctc_weight = 1.0` (pure CTC
re-scoring). -/
def exArgs1 : Args := ⟨1, 0, 1, 0, 0, 0⟩

/-- A trivial CTC scorer over a two-token vocabulary (all scores 0). -/
def exCs8 : CTCPrefixScore Unit := ⟨2, (), fun _ _ _ => (fun _ => 0, fun _ => ())⟩

/-- A two-token model with CTC present and an EOS-preferring attention
decoder. -/
def exCtc8 : Model Unit Unit :=
  { odim := 2
    sos := 1
    eos := 1
    att := fun _ c => if c = 1 then 0 else -1
    ctc := some exCs8
    lm := none
    end_detect := fun _ _ => false }

/-- Arguments with `ctc_weight = 1.5`, outside the documented `[0, 1]`
range. -/
def exArgs8 : Args := ⟨1, 0, 3 / 2, 0, 0, 0⟩

/- Helper lemmas about the sorting and filtering primitives. -/

theorem sortByDesc_perm {α : Type} (key : α → ℚ) (l : List α) :
    (sortByDesc key l).Perm l :=
  List.perm_insertionSort _ l

theorem length_sortByDesc {α : Type} (key : α → ℚ) (l : List α) :
    (sortByDesc key l).length = l.length :=
  (sortByDesc_perm key l).length_eq

theorem mem_sortByDesc {α : Type} {key : α → ℚ} {l : List α} {x : α} :
    x ∈ sortByDesc key l ↔ x ∈ l :=
  (sortByDesc_perm key l).mem_iff

theorem sortByDesc_pairwise {α : Type} (key : α → ℚ) (l : List α) :
    (sortByDesc key l).Pairwise (fun a b => key b ≤ key a) := by
  haveI : IsTotal α (fun a b => key b ≤ key a) := ⟨fun a b => le_total (key b) (key a)⟩
  haveI : IsTrans α (fun a b => key b ≤ key a) := ⟨fun _ _ _ h1 h2 => le_trans h2 h1⟩
  exact List.sorted_insertionSort _ l

theorem length_argsortDesc (n : Nat) (s : Nat → ℚ) : (argsortDesc n s).length = n := by
  simp [argsortDesc, length_sortByDesc]

theorem mem_argsortDesc {n : Nat} {s : Nat → ℚ} {c : Nat} :
    c ∈ argsortDesc n s ↔ c < n := by
  simp [argsortDesc, mem_sortByDesc]

theorem argsortDesc_pairwise (n : Nat) (s : Nat → ℚ) :
    (argsortDesc n s).Pairwise (fun a b => s b ≤ s a) :=
  sortByDesc_pairwise s (List.range n)

theorem pairwise_take_drop {α : Type} {R : α → α → Prop} {l : List α}
    (hp : l.Pairwise R) (k : Nat) :
    ∀ a ∈ l.take k, ∀ b ∈ l.drop k, R a b := by
  have h2 : (l.take k ++ l.drop k).Pairwise R := by
    rw [List.take_append_drop]; exact hp
  exact (List.pairwise_append.mp h2).2.2

theorem hypEndBonus_yseq (m : Model σ γ) (args : Args) (i : Nat) (h : Hyp σ γ) :
    (hypEndBonus m args i h).yseq = h.yseq := rfl

theorem filterEnded_fst (m : Model σ γ) (args : Args) (minlen : ℤ) (i : Nat)
    (l : List (Hyp σ γ)) :
    (filterEnded m args minlen i l).1 =
      (l.filter (fun h => decide (h.yseq.getLast? = some m.eos)
        && decide (minlen < (h.yseq.length : ℤ)))).map (hypEndBonus m args i) := by
  induction l with
  | nil => rfl
  | cons h t ih =>
    by_cases h1 : h.yseq.getLast? = some m.eos
    · by_cases h2 : minlen < (h.yseq.length : ℤ)
      · simp [filterEnded, h1, h2, ih, List.filter_cons]
      · simp [filterEnded, h1, h2, ih, List.filter_cons]
    · simp [filterEnded, h1, ih, List.filter_cons]

theorem filterEnded_snd (m : Model σ γ) (args : Args) (minlen : ℤ) (i : Nat)
    (l : List (Hyp σ γ)) :
    (filterEnded m args minlen i l).2 =
      l.filter (fun h => !decide (h.yseq.getLast? = some m.eos)) := by
  induction l with
  | nil => rfl
  | cons h t ih =>
    by_cases h1 : h.yseq.getLast? = some m.eos
    · by_cases h2 : minlen < (h.yseq.length : ℤ)
      · simp [filterEnded, h1, h2, ih, List.filter_cons]
      · simp [filterEnded, h1, h2, ih, List.filter_cons]
    · simp [filterEnded, h1, ih, List.filter_cons]

theorem filterEnded_fst_minlen (m : Model σ γ) (args : Args) (minlen : ℤ) (i : Nat)
    (l : List (Hyp σ γ)) :
    ∀ h2 ∈ (filterEnded m args minlen i l).1, minlen < (h2.yseq.length : ℤ) := by
  intro h2 hmem
  rw [filterEnded_fst] at hmem
  rcases List.mem_map.mp hmem with ⟨h0, hin, he⟩
  rcases List.mem_filter.mp hin with ⟨-, hcond⟩
  rcases Bool.and_eq_true_iff.mp hcond with ⟨-, hlen⟩
  have := of_decide_eq_true hlen
  rw [← he]
  simpa [hypEndBonus_yseq] using this

theorem length_foldl_prune_le (m : Model σ γ) (args : Args) (i : Nat) :
    ∀ (l acc : List (Hyp σ γ)), acc.length ≤ args.beam_size →
      (l.foldl (fun acc hyp =>
        (sortByDesc Hyp.score (acc ++ expandHyp m args i hyp)).take args.beam_size)
        acc).length ≤ args.beam_size := by
  intro l
  induction l with
  | nil => intro acc h; exact h
  | cons hyp t ih =>
    intro acc _
    exact ih _ (le_trans (List.length_take_le _ _) (le_refl _))

theorem pyTrunc_eq_floor {q : ℚ} (h : 0 ≤ q) : pyTrunc q = ⌊q⌋ := by
  rw [pyTrunc, Int.tdiv_eq_ediv (Rat.num_nonneg.mpr h) (Int.ofNat_nonneg _), Rat.floor_def]

theorem recognize_beam_st_frame (m : Model σ γ) (L : Nat) :
    ∀ (fuel : Nat) (store : List Args) (r q : Nat), q < store.length →
      ((recognize_beam_st m L fuel store r).2)[q]? = store[q]? := by
  intro fuel
  induction fuel with
  | zero => intro store r q hq; rfl
  | succ f ih =>
    intro store r q hq
    rw [recognize_beam_st]
    split
    · rw [ih _ _ q (by simp; omega)]
      rw [List.getElem?_set_ne (by omega), List.getElem?_append_left hq]
    · rfl

theorem recognize_beam_succ_of_ne (m : Model σ γ) (fuel : Nat) (args : Args) (L : Nat)
    (hne : searchOnce m args L ≠ []) :
    recognize_beam m (fuel + 1) args L =
      some (sortByDesc Hyp.score (searchOnce m args L)) := by
  have hlen : ¬ (sortByDesc Hyp.score (searchOnce m args L)).length = 0 := by
    rw [length_sortByDesc]
    exact fun h => hne (List.length_eq_zero.mp h)
  rw [recognize_beam, if_neg hlen]

theorem recognize_beam_succ_of_empty (m : Model σ γ) (fuel : Nat) (args : Args) (L : Nat)
    (he : searchOnce m args L = []) :
    recognize_beam m (fuel + 1) args L =
      recognize_beam m fuel { args with minlenratio := max 0 (args.minlenratio - 1 / 10) } L := by
  have hlen : (sortByDesc Hyp.score (searchOnce m args L)).length = 0 := by
    rw [length_sortByDesc, he]; rfl
  rw [recognize_beam, if_pos hlen]

theorem recognize_beam_ne_some_nil (m : Model σ γ) (L : Nat) :
    ∀ (fuel : Nat) (args : Args), recognize_beam m fuel args L ≠ some [] := by
  intro fuel
  induction fuel with
  | zero => intro args h; exact Option.noConfusion h
  | succ f ih =>
    intro args
    by_cases he : searchOnce m args L = []
    · rw [recognize_beam_succ_of_empty m f args L he]
      exact ih _
    · rw [recognize_beam_succ_of_ne m f args L he]
      intro h
      have hnil := Option.some.inj h
      have : (sortByDesc Hyp.score (searchOnce m args L)).length = 0 := by rw [hnil]; rfl
      rw [length_sortByDesc] at this
      exact he (List.length_eq_zero.mp this)

/-- C2. At every step, a pruned hypothesis whose last token is EOS either has
strictly more than `minlen` tokens — then its score gains `(i+1)*penalty`
plus, with an LM, `lm_weight * rnnlm.final(...)`, and it moves to the ended
list — or it is dropped entirely (it reaches neither the ended list nor the
next beam, which keeps exactly the non-EOS-ending hypotheses).  Every member
of the ended additions therefore has length exceeding `minlen`; with
`minlenratio = 0.5` on a 10-frame utterance `minlen = 5`, so no hypothesis
shorter than 5 tokens can be added to the ended list. -/
theorem c2_completion_filtering (m : Model σ γ) (args : Args) (minlen : ℤ) (i : Nat)
    (hyps : List (Hyp σ γ)) :
    (filterEnded m args minlen i hyps).1 =
      (hyps.filter (fun h => decide (h.yseq.getLast? = some m.eos)
        && decide (minlen < (h.yseq.length : ℤ)))).map (hypEndBonus m args i) ∧
    (filterEnded m args minlen i hyps).2 =
      hyps.filter (fun h => !decide (h.yseq.getLast? = some m.eos)) ∧
    (∀ h ∈ hyps, (hypEndBonus m args i h).yseq = h.yseq ∧
      (hypEndBonus m args i h).score = h.score + ((i : ℚ) + 1) * args.penalty
        + (match m.lm with
           | some lm => args.lm_weight * lm.final h.rnnlm_prev
           | none => 0)) ∧
    (∀ h2 ∈ (filterEnded m args minlen i hyps).1, minlen < (h2.yseq.length : ℤ)) ∧
    minlenOf ⟨1, 0, 0, 0, 0, 1 / 2⟩ 10 = 5 := by
  refine ⟨filterEnded_fst m args minlen i hyps, filterEnded_snd m args minlen i hyps,
    ?_, filterEnded_fst_minlen m args minlen i hyps, by decide⟩
  intro h _
  exact ⟨rfl, rfl⟩

/-- C3. At the step where `i == maxlen - 1`, EOS is appended to every
hypothesis that survived pruning, unconditionally; every such hypothesis then
ends with EOS, the remaining (live) list of the completion filter is empty,
and the loop stops at this step — `searchLoop` returns the accumulated ended
list extended by this step's completions, performing no further step. -/
theorem c3_force_eos (m : Model σ γ) (args : Args) (maxlen : Nat) (minlen : ℤ)
    (st : SearchState σ γ) (n : Nat) :
    (∀ h2 ∈ (pruneExpand m args (maxlen - 1) st.hyps).map (forceEos m),
      h2.yseq.getLast? = some m.eos) ∧
    (filterEnded m args minlen (maxlen - 1)
      ((pruneExpand m args (maxlen - 1) st.hyps).map (forceEos m))).2 = [] ∧
    searchLoop m args maxlen minlen (n + 1) (maxlen - 1) st =
      st.ended ++ (filterEnded m args minlen (maxlen - 1)
        ((pruneExpand m args (maxlen - 1) st.hyps).map (forceEos m))).1 := by
  have hall : ∀ h2 ∈ (pruneExpand m args (maxlen - 1) st.hyps).map (forceEos m),
      h2.yseq.getLast? = some m.eos := by
    intro h2 hmem
    rcases List.mem_map.mp hmem with ⟨h0, -, he⟩
    rw [← he]
    exact List.getLast?_concat _
  have hsnd : (filterEnded m args minlen (maxlen - 1)
      ((pruneExpand m args (maxlen - 1) st.hyps).map (forceEos m))).2 = [] := by
    rw [filterEnded_snd]
    apply List.filter_eq_nil_iff.mpr
    intro a ha
    simp [hall a ha]
  refine ⟨hall, hsnd, ?_⟩
  have hstep : stepBody m args maxlen minlen (maxlen - 1) st =
      StepOut.stop (st.ended ++ (filterEnded m args minlen (maxlen - 1)
        ((pruneExpand m args (maxlen - 1) st.hyps).map (forceEos m))).1) := by
    rw [stepBody]
    simp only [if_pos rfl, hsnd, List.isEmpty_nil, if_true, ite_self]
  rw [searchLoop, hstep]

/-- C6. For encoder output length `L`, `maxlenratio >= 0` and
`minlenratio` in `[0, 1)`: `maxlen` equals `L` exactly when
`maxlenratio == 0`, equals `max(1, floor(maxlenratio * L))` when
`maxlenratio > 0`, and `minlen` equals `floor(minlenratio * L)`. -/
theorem c6_maxlen_minlen (args : Args) (L : Nat)
    (hmax : 0 ≤ args.maxlenratio) (hmin0 : 0 ≤ args.minlenratio)
    (hmin1 : args.minlenratio < 1) :
    (args.maxlenratio = 0 → maxlenOf args L = L) ∧
    (0 < args.maxlenratio →
      (maxlenOf args L : ℤ) = max 1 ⌊args.maxlenratio * (L : ℚ)⌋) ∧
    minlenOf args L = ⌊args.minlenratio * (L : ℚ)⌋ := by
  refine ⟨fun h0 => by rw [maxlenOf, if_pos h0], fun hpos => ?_, ?_⟩
  · rw [maxlenOf, if_neg (ne_of_gt hpos)]
    rw [pyTrunc_eq_floor (mul_nonneg hmax (by positivity))]
    rw [Int.toNat_of_nonneg (le_trans zero_le_one (le_max_left _ _))]
  · rw [minlenOf, pyTrunc_eq_floor (mul_nonneg hmin0 (by positivity))]

/-- C7. At every decoding step the pruned beam `hyps_best_kept` holds at most
`beam_size` hypotheses: every append of a hypothesis's children is followed by
a sort and a truncation to `beam` entries. -/
theorem c7_beam_bound (m : Model σ γ) (args : Args) (i : Nat) (hyps : List (Hyp σ γ)) :
    (pruneExpand m args i hyps).length ≤ args.beam_size :=
  length_foldl_prune_le m args i hyps [] (Nat.zero_le _)

/-- C4. When the step loop of `recognize_beam` finishes, the ended list is
sorted by score in descending order (a permutation of `ended_hyps`, pairwise
non-increasing in score) and returned as the N-best result; when it is empty,
the search is re-run from initialization with `minlenratio` reduced by 0.1 and
floored at 0 on a copied namespace — a recursive retry, not an error. -/
theorem c4_final_sort_and_retry (m : Model σ γ) (fuel : Nat) (args : Args) (L : Nat) :
    (searchOnce m args L ≠ [] →
      recognize_beam m (fuel + 1) args L =
        some (sortByDesc Hyp.score (searchOnce m args L)) ∧
      (sortByDesc Hyp.score (searchOnce m args L)).Pairwise (fun a b => b.score ≤ a.score) ∧
      (sortByDesc Hyp.score (searchOnce m args L)).Perm (searchOnce m args L)) ∧
    (searchOnce m args L = [] →
      recognize_beam m (fuel + 1) args L =
        recognize_beam m fuel { args with minlenratio := max 0 (args.minlenratio - 1 / 10) } L) := by
  constructor
  · intro hne
    exact ⟨recognize_beam_succ_of_ne m fuel args L hne,
      sortByDesc_pairwise Hyp.score (searchOnce m args L),
      sortByDesc_perm Hyp.score (searchOnce m args L)⟩
  · intro he
    exact recognize_beam_succ_of_empty m fuel args L he

/-- C5 (amended). When a search pass produces an empty ended list — in
particular when the beam becomes empty before any hypothesis has ended —
`recognize_beam` does not report an empty N-best result: it retries the whole
search with `minlenratio` reduced by 0.1 (floored at 0).  An empty N-best
list is never returned, for any arguments and any recursion fuel. -/
theorem c5_no_empty_nbest (m : Model σ γ) (fuel : Nat) (args : Args) (L : Nat) :
    (∀ (f : Nat) (a2 : Args), recognize_beam m f a2 L ≠ some []) ∧
    (searchOnce m args L = [] →
      recognize_beam m (fuel + 1) args L =
        recognize_beam m fuel { args with minlenratio := max 0 (args.minlenratio - 1 / 10) } L) :=
  ⟨recognize_beam_ne_some_nil m L, recognize_beam_succ_of_empty m fuel args L⟩

/-- C8 (amended). Neither `recognize` nor `recognize_beam` validates
`ctc_weight` or the posterior matrix: even when `ctc_weight` lies outside
`[0, 1]`, `recognize_beam` simply runs the beam search with the given value —
one unfolding of the search step, with no error path before it. -/
theorem c8_no_validation (m : Model σ γ) (fuel : Nat) (args : Args) (L : Nat)
    (hw : args.ctc_weight < 0 ∨ 1 < args.ctc_weight) :
    recognize_beam m (fuel + 1) args L =
      (if (sortByDesc Hyp.score (searchOnce m args L)).length = 0 then
        recognize_beam m fuel { args with minlenratio := max 0 (args.minlenratio - 1 / 10) } L
      else some (sortByDesc Hyp.score (searchOnce m args L))) := by
  rw [recognize_beam]

/-- C1 (amended). With a CTC posterior present (CTC vocabulary equal to the
decoder vocabulary), at every decoding step and for every hypothesis: the
CTC-scoring candidate set has size `min(vocab_size, floor(beam_size * 1.5))`
when `ctc_weight != 1.0` and is the full vocabulary when `ctc_weight == 1.0`;
it consists of the top-scoring tokens under the pre-pruning score (attention
plus weighted LM when an LM is present, attention-only otherwise); the CTC
scorer is queried exactly for this restricted set; every kept child extends
its parent by a candidate token with score delta
`(1-ctc_weight)*att + ctc_weight*(ctc - ctc_prev) [+ lm_weight*lm]`; exactly
`min(beam_size, candidate_count)` children are kept, and they dominate every
non-kept candidate under the combined score. -/
theorem c1_ctc_pruning (m : Model σ γ) (args : Args) (i : Nat) (hyp : Hyp σ γ)
    (cs : CTCPrefixScore γ) (hctc : m.ctc = some cs) (hv : cs.vocab = m.odim) :
    (ctcCandidates m args i hyp cs).length =
      (if args.ctc_weight = 1 then m.odim
       else min m.odim (⌊(args.beam_size : ℚ) * (3 / 2)⌋).toNat) ∧
    (∀ c ∈ ctcCandidates m args i hyp cs, ∀ c2, c2 < m.odim →
      c2 ∉ ctcCandidates m args i hyp cs →
      preScores m args i hyp c2 ≤ preScores m args i hyp c) ∧
    ctcRes m args i hyp cs =
      cs.score hyp.yseq (ctcCandidates m args i hyp cs) hyp.ctc_state_prev ∧
    (∀ h2 ∈ expandHyp m args i hyp, ∃ c ∈ keptTokens m args i hyp cs,
      h2.yseq = hyp.yseq ++ [c] ∧
      h2.score = hyp.score + combScores m args i hyp cs c) ∧
    (expandHyp m args i hyp).length =
      min args.beam_size (ctcCandidates m args i hyp cs).length ∧
    (∀ c ∈ keptTokens m args i hyp cs, ∀ c2 ∈ ctcCandidates m args i hyp cs,
      c2 ∉ keptTokens m args i hyp cs →
      combScores m args i hyp cs c2 ≤ combScores m args i hyp cs c) := by
  have hlen : (ctcCandidates m args i hyp cs).length = min (ctcBeamOf args cs) m.odim := by
    rw [ctcCandidates, List.length_take, length_argsortDesc]
  refine ⟨?_, ?_, rfl, ?_, ?_, ?_⟩
  · by_cases hw : args.ctc_weight = 1
    · rw [hlen, ctcBeamOf, if_pos hw, hv, min_self, if_pos hw]
    · rw [hlen, ctcBeamOf, if_neg hw, hv, if_neg hw]
      have ht : pyTrunc ((args.beam_size : ℚ) * ctcScoringRatio) =
          ⌊(args.beam_size : ℚ) * (3 / 2)⌋ := by
        rw [ctcScoringRatio]
        exact pyTrunc_eq_floor (by positivity)
      rw [ht]
      omega
  · intro c hc c2 hlt hnot
    have hcross := pairwise_take_drop
      (argsortDesc_pairwise m.odim (preScores m args i hyp)) (ctcBeamOf args cs)
    have hc2mem : c2 ∈ argsortDesc m.odim (preScores m args i hyp) :=
      mem_argsortDesc.mpr hlt
    rw [← List.take_append_drop (ctcBeamOf args cs)
      (argsortDesc m.odim (preScores m args i hyp))] at hc2mem
    rcases List.mem_append.mp hc2mem with hin | hin
    · exact absurd hin hnot
    · exact hcross c hc c2 hin
  · intro h2 hmem
    simp only [expandHyp, hctc] at hmem
    rcases List.mem_map.mp hmem with ⟨c, hcmem, he⟩
    exact ⟨c, hcmem, by rw [← he], by rw [← he]⟩
  · simp only [expandHyp, hctc, List.length_map, keptTokens, List.length_take,
      length_sortByDesc]
  · intro c hc c2 hc2 hnot
    have hcross := pairwise_take_drop
      (sortByDesc_pairwise (combScores m args i hyp cs) (ctcCandidates m args i hyp cs))
      args.beam_size
    have hc2mem : c2 ∈ sortByDesc (combScores m args i hyp cs)
        (ctcCandidates m args i hyp cs) := mem_sortByDesc.mpr hc2
    rw [← List.take_append_drop args.beam_size
      (sortByDesc (combScores m args i hyp cs) (ctcCandidates m args i hyp cs))] at hc2mem
    rcases List.mem_append.mp hc2mem with hin | hin
    · exact absurd hin hnot
    · exact hcross c hc c2 hin

/-- C10. `recognize_beam` never mutates the caller's `recog_args` namespace:
in the heap model of argument namespaces, the entry the caller holds a
reference to is unchanged after the call, because the empty-result retry
rebinds a freshly copied namespace before assigning `minlenratio`. -/
theorem c10_recog_args_not_mutated (m : Model σ γ) (L fuel : Nat) (store : List Args)
    (r : Nat) (h : r < store.length) :
    ((recognize_beam_st m L fuel store r).2)[r]? = store[r]? :=
  recognize_beam_st_frame m L fuel store r r h

/-- C1 counterexample.  With `ctc_weight = 1.0` and `beam_size = 1` on a
three-token vocabulary, the claimed candidate set — the top
`min(vocab_size, floor(beam_size * 1.5)) = 1` tokens under the attention-only
score — is `[0]`, yet the kept child extends the hypothesis with token 1:
with `ctc_weight == 1.0` the source scores the full vocabulary with CTC
instead of restricting to the attention top tokens, so the claim's candidate
set description is violated. -/
theorem c1_counterexample :
    (expandHyp exCtc1 exArgs1 0 (initHyp exCtc1)).map (fun h => h.yseq) = [[2, 1]] ∧
    (argsortDesc exCtc1.odim (exCtc1.att (initHyp exCtc1).yseq)).take
      (min exCtc1.odim (pyTrunc ((exArgs1.beam_size : ℚ) * (3 / 2))).toNat) = [0] ∧
    (1 : Nat) ∉ ([0] : List Nat) := by decide

/-- C1 witness: the amended candidate-set size, instantiated at the concrete
CTC model. -/
theorem c1_witness :
    (ctcCandidates exCtc1 exArgs1 0 (initHyp exCtc1) exCs1).length =
      (if exArgs1.ctc_weight = 1 then exCtc1.odim
       else min exCtc1.odim (⌊(exArgs1.beam_size : ℚ) * (3 / 2)⌋).toNat) :=
  (c1_ctc_pruning exCtc1 exArgs1 0 (initHyp exCtc1) exCs1 rfl rfl).1

/-- C2 witness: a completed 3-token hypothesis passes the `minlen = 1` check,
so the minimum-length bound applies to it inside the ended additions. -/
theorem c2_witness :
    (1 : ℤ) <
      (((hypEndBonus exA exArgs5 0 ⟨0, [1, 0, 1], none, none, 0⟩)).yseq.length : ℤ) :=
  (c2_completion_filtering exA exArgs5 1 0 [⟨0, [1, 0, 1], none, none, 0⟩]).2.2.2.1
    (hypEndBonus exA exArgs5 0 ⟨0, [1, 0, 1], none, none, 0⟩) (by decide)

/-- C3 witness: the force-EOS step equation instantiated at a concrete
one-step search. -/
theorem c3_witness :
    searchLoop exA exArgs9 1 2 (0 + 1) (1 - 1) ⟨[initHyp exA], []⟩ =
      (⟨[initHyp exA], []⟩ : SearchState Unit Unit).ended ++
        (filterEnded exA exArgs9 2 (1 - 1)
          ((pruneExpand exA exArgs9 (1 - 1)
            (⟨[initHyp exA], []⟩ : SearchState Unit Unit).hyps).map (forceEos exA))).1 :=
  (c3_force_eos exA exArgs9 1 2 ⟨[initHyp exA], []⟩ 0).2.2

/-- C4 witness: with a non-empty ended list, `recognize_beam` returns the
score-sorted ended list. -/
theorem c4_witness :
    recognize_beam exCtc8 (0 + 1) exArgs8 2 =
      some (sortByDesc Hyp.score (searchOnce exCtc8 exArgs8 2)) :=
  ((c4_final_sort_and_retry exCtc8 0 exArgs8 2).1 (by decide)).1

/-- C5 counterexample.  With `minlenratio = 0.9` on 4 frames, the only
hypothesis completes immediately but is shorter than `minlen`, so the beam
empties at step 0 with nothing ended (the step stops with an empty ended
list); the claim says `recognize_beam` then returns an empty N-best list, yet
the source retries with smaller `minlenratio` and here returns a non-empty
result. -/
theorem c5_counterexample :
    stepBody exA exArgs5 (maxlenOf exArgs5 4) (minlenOf exArgs5 4) 0
      ⟨[initHyp exA], []⟩ = StepOut.stop [] ∧
    searchOnce exA exArgs5 4 = [] ∧
    recognize_beam exA 10 exArgs5 4 = some [⟨0, [1, 1], none, none, 0⟩] ∧
    ¬ recognize_beam exA 10 exArgs5 4 = some [] := by decide

/-- C5 witness: the empty-result retry equation instantiated at the concrete
model whose first pass ends with nothing. -/
theorem c5_witness :
    recognize_beam exA (9 + 1) exArgs5 4 =
      recognize_beam exA 9
        { exArgs5 with minlenratio := max 0 (exArgs5.minlenratio - 1 / 10) } 4 :=
  (c5_no_empty_nbest exA 9 exArgs5 4).2 (by decide)

/-- C6 witness: the `maxlen`/`minlen` formulas instantiated at
`maxlenratio = 0.1`, `minlenratio = 0.2`, `L = 10`. -/
theorem c6_witness :
    (maxlenOf exArgs9 10 : ℤ) = max 1 ⌊exArgs9.maxlenratio * (10 : ℚ)⌋ ∧
    minlenOf exArgs9 10 = ⌊exArgs9.minlenratio * (10 : ℚ)⌋ :=
  ⟨(c6_maxlen_minlen exArgs9 10 (by decide) (by decide) (by decide)).2.1 (by decide),
   (c6_maxlen_minlen exArgs9 10 (by decide) (by decide) (by decide)).2.2⟩

/-- C8 counterexample.  `ctc_weight = 1.5` lies outside `[0, 1]`, yet the
decoder neither raises nor reports a configuration error: the search runs and
returns an ordinary result (the embedding mirrors the source, which contains
no validation whatsoever between entry and the search loop). -/
theorem c8_counterexample :
    (1 : ℚ) < exArgs8.ctc_weight ∧
    recognize_beam exCtc8 1 exArgs8 2 = some [⟨0, [1, 1], none, some (), 0⟩] := by decide

/-- C8 witness: the validation-free unfolding applied at the out-of-range
weight. -/
theorem c8_witness :
    recognize_beam exCtc8 (0 + 1) exArgs8 2 =
      (if (sortByDesc Hyp.score (searchOnce exCtc8 exArgs8 2)).length = 0 then
        recognize_beam exCtc8 0
          { exArgs8 with minlenratio := max 0 (exArgs8.minlenratio - 1 / 10) } 2
      else some (sortByDesc Hyp.score (searchOnce exCtc8 exArgs8 2))) :=
  c8_no_validation exCtc8 0 exArgs8 2 (Or.inr (by decide))

/-- C9. On a 10-frame input with `maxlenratio = 0.1` (so `maxlen = 1`) and
`minlenratio = 0.2` (so `minlen = 2`), the only (forced-EOS) step selects EOS
as the new token and then appends EOS again: the returned best hypothesis is
`[sos, eos, eos]`, ending in two consecutive EOS tokens; its double-EOS
length 3 passes the `> minlen` check that the pre-append length 2 would have
failed, and it is returned in the N-best list. -/
theorem c9_double_eos :
    recognize_beam exA 1 exArgs9 10 = some [⟨0, [1, 1, 1], none, none, 0⟩] ∧
    ([1, 1, 1] : List Nat).getLast? = some exA.eos ∧
    (([1, 1, 1] : List Nat).dropLast).getLast? = some exA.eos ∧
    maxlenOf exArgs9 10 = 1 ∧
    minlenOf exArgs9 10 < (([1, 1, 1] : List Nat).length : ℤ) ∧
    ¬ minlenOf exArgs9 10 < ((([1, 1, 1] : List Nat).dropLast).length : ℤ) := by decide

/-- C10 witness: the caller's namespace entry is untouched by a concrete
retrying run. -/
theorem c10_witness :
    ((recognize_beam_st exA 4 10 [exArgs5] 0).2)[0]? = [exArgs5][0]? :=
  c10_recog_args_not_mutated exA 4 10 [exArgs5] 0 (by decide)

end E2ETransformer
